import Mathlib

/-!
Verification of the `@rediskit/cache` facade (src/src/cache.ts and
src/src/errors/CacheError.ts) against its specification.

The development shallowly embeds the Serializable data model, the
serialize / parse pair (including the JSON text form produced and consumed
by the host language's JSON.stringify / JSON.parse built-ins, restricted
here to integer numerals), the key-value store state, and the facade
operations get / set / remember / exists / flush together with the
error-wrapping helper `handleError` and the `CacheError` class.  Backend
failures are modelled by parameterizing each operation on the outcome of
the underlying client command.
-/

/-- Serializable values (cache.ts line 5): string, number, boolean,
null, arrays and string-keyed records.  JS numbers are modelled as
integers. -/
inductive JVal where
  | str (s : String)
  | num (n : Int)
  | bool (b : Bool)
  | null
  | arr (xs : List JVal)
  | obj (fs : List (String × JVal))

/-- The decimal digit character for a digit `n < 10`. -/
def digitChar (n : Nat) : Char := Char.ofNat ('0'.toNat + n)

/-- Decimal digits of a natural number, most significant first: the text
produced for a non-negative integer by the host language. -/
def natChars (n : Nat) : List Char :=
  if n < 10 then [digitChar n] else natChars (n / 10) ++ [digitChar (n % 10)]
decreasing_by exact Nat.div_lt_self (by omega) (by omega)

/-- Decimal text of an integer, as produced by JS `String(n)` /
`JSON.stringify(n)` for an integral number. -/
def intChars (n : Int) : List Char :=
  if n < 0 then '-' :: natChars n.natAbs else natChars n.natAbs

/-- Lower-case hexadecimal digit character for `n < 16`. -/
def hexDigitChar (n : Nat) : Char :=
  if n < 10 then Char.ofNat ('0'.toNat + n) else Char.ofNat ('a'.toNat + n - 10)

/-- JSON string escaping of one character, as performed by
`JSON.stringify`: quote and backslash get a backslash escape, the common
control characters get their short escapes, remaining control characters
get a `\u00XX` escape, and every other character is emitted verbatim. -/
def escapeChar (c : Char) : List Char :=
  if c = '"' then ['\\', '"']
  else if c = '\\' then ['\\', '\\']
  else if c = '\n' then ['\\', 'n']
  else if c = '\r' then ['\\', 'r']
  else if c = '\t' then ['\\', 't']
  else if c.toNat < 32 then
    ['\\', 'u', '0', '0', hexDigitChar (c.toNat / 16), hexDigitChar (c.toNat % 16)]
  else [c]

/-- JSON string escaping of a character sequence. -/
def escapeChars : List Char → List Char
  | [] => []
  | c :: cs => escapeChar c ++ escapeChars cs

mutual
/-- The JSON text form of a value, as produced by `JSON.stringify`
(no extra whitespace; integer numerals). -/
def stringifyV : JVal → List Char
  | .str s => '"' :: escapeChars s.data ++ ['"']
  | .num n => intChars n
  | .bool b => if b then "true".data else "false".data
  | .null => "null".data
  | .arr xs => '[' :: stringifyItems xs ++ [']']
  | .obj fs => '\x7b' :: stringifyFields fs ++ ['\x7d']

/-- Comma-separated JSON texts of array elements. -/
def stringifyItems : List JVal → List Char
  | [] => []
  | [v] => stringifyV v
  | v :: rest => stringifyV v ++ ',' :: stringifyItems rest

/-- Comma-separated `"key":value` JSON texts of object members. -/
def stringifyFields : List (String × JVal) → List Char
  | [] => []
  | [(k, v)] => '"' :: escapeChars k.data ++ '"' :: ':' :: stringifyV v
  | (k, v) :: rest =>
      '"' :: escapeChars k.data ++ '"' :: ':' :: stringifyV v ++ ',' :: stringifyFields rest
end

/-- The JSON text of a value as a string. -/
def jsonStringify (v : JVal) : String := String.mk (stringifyV v)

/-! ### JSON parsing (`JSON.parse`)

A recursive-descent parser over the JSON grammar: whitespace is skipped
around tokens, numbers are integer numerals without a leading zero,
strings support the standard escapes.  Numbers with fractional or
exponent parts are outside the integer model and are rejected.  The
parser is structurally recursive on an explicit fuel so that it
evaluates by kernel reduction. -/

/-- JSON whitespace. -/
def isWsChar (c : Char) : Bool := c = ' ' || c = '\t' || c = '\n' || c = '\r'

/-- Drop leading JSON whitespace. -/
def skipWs : List Char → List Char
  | [] => []
  | c :: cs => if isWsChar c then skipWs cs else c :: cs

/-- Match an expected literal character sequence, returning the rest. -/
def expectLit : List Char → List Char → Option (List Char)
  | [], cs => some cs
  | _ :: _, [] => none
  | l :: ls, c :: cs => if c = l then expectLit ls cs else none

/-- Value of a hexadecimal digit character. -/
def hexVal (c : Char) : Option Nat :=
  if '0' ≤ c ∧ c ≤ '9' then some (c.toNat - '0'.toNat)
  else if 'a' ≤ c ∧ c ≤ 'f' then some (c.toNat - 'a'.toNat + 10)
  else if 'A' ≤ c ∧ c ≤ 'F' then some (c.toNat - 'A'.toNat + 10)
  else none

/-- The character denoted by a single-character JSON escape. -/
def unescapeChar (e : Char) : Option Char :=
  if e = '"' then some '"'
  else if e = '\\' then some '\\'
  else if e = '/' then some '/'
  else if e = 'n' then some '\n'
  else if e = 't' then some '\t'
  else if e = 'r' then some '\r'
  else if e = 'b' then some (Char.ofNat 8)
  else if e = 'f' then some (Char.ofNat 12)
  else none

/-- Parse the body of a JSON string after the opening quote, up to and
including the closing quote; unescapes escapes and rejects raw control
characters. -/
def parseStringChars : List Char → Option (List Char × List Char)
  | [] => none
  | c :: cs =>
    if c = '"' then some ([], cs)
    else if c = '\\' then
      match cs with
      | [] => none
      | e :: cs' =>
        if e = 'u' then
          match cs' with
          | h1 :: h2 :: h3 :: h4 :: cs'' =>
            (hexVal h1).bind fun v1 =>
              (hexVal h2).bind fun v2 =>
                (hexVal h3).bind fun v3 =>
                  (hexVal h4).bind fun v4 =>
                    (parseStringChars cs'').map fun p =>
                      (Char.ofNat (((v1 * 16 + v2) * 16 + v3) * 16 + v4) :: p.1, p.2)
          | _ => none
        else
          (unescapeChar e).bind fun u =>
            (parseStringChars cs').map fun p => (u :: p.1, p.2)
    else if c.toNat < 32 then none
    else (parseStringChars cs).map fun p => (c :: p.1, p.2)

/-- Take the longest prefix of decimal digits. -/
def spanDigits : List Char → List Char × List Char
  | [] => ([], [])
  | c :: cs =>
    if c.isDigit then
      let p := spanDigits cs
      (c :: p.1, p.2)
    else ([], c :: cs)

/-- Fold decimal digit characters onto an accumulator. -/
def digitsToNat (acc : Nat) : List Char → Nat
  | [] => acc
  | c :: cs => digitsToNat (acc * 10 + (c.toNat - '0'.toNat)) cs

/-- Parse a JSON natural numeral: `0`, or a nonzero digit followed by
digits (a leading zero followed by a digit is rejected, as in JSON). -/
def parseNatNum : List Char → Option (Nat × List Char)
  | [] => none
  | c :: cs =>
    if c = '0' then
      match cs with
      | d :: _ => if d.isDigit then none else some (0, cs)
      | [] => some (0, [])
    else if c.isDigit then
      let p := spanDigits cs
      some (digitsToNat (c.toNat - '0'.toNat) p.1, p.2)
    else none

/-- Parse a JSON integer numeral with optional leading minus sign. -/
def parseNum (cs : List Char) : Option (Int × List Char) :=
  match cs with
  | [] => none
  | c :: cs' =>
    if c = '-' then (parseNatNum cs').map fun p => (-(p.1 : Int), p.2)
    else (parseNatNum (c :: cs')).map fun p => ((p.1 : Int), p.2)

mutual
/-- Parse one JSON value (after skipping whitespace), returning it and
the unconsumed rest of the input. -/
def parseVal : Nat → List Char → Option (JVal × List Char)
  | 0, _ => none
  | fuel + 1, cs =>
    match skipWs cs with
    | [] => none
    | c :: rest =>
      if c = 'n' then (expectLit "ull".data rest).map fun r => (.null, r)
      else if c = 't' then (expectLit "rue".data rest).map fun r => (.bool true, r)
      else if c = 'f' then (expectLit "alse".data rest).map fun r => (.bool false, r)
      else if c = '"' then
        (parseStringChars rest).map fun p => (.str (String.mk p.1), p.2)
      else if c = '[' then
        let r1 := skipWs rest
        if r1.head? = some ']' then some (.arr [], r1.tail)
        else (parseItems fuel r1).map fun p => (.arr p.1, p.2)
      else if c = '\x7b' then
        let r1 := skipWs rest
        if r1.head? = some '\x7d' then some (.obj [], r1.tail)
        else (parseFields fuel r1).map fun p => (.obj p.1, p.2)
      else if c = '-' ∨ c.isDigit then (parseNum (c :: rest)).map fun p => (.num p.1, p.2)
      else none

/-- Parse the comma-separated elements of a non-empty JSON array,
consuming the closing bracket. -/
def parseItems : Nat → List Char → Option (List JVal × List Char)
  | 0, _ => none
  | fuel + 1, cs =>
    (parseVal fuel cs).bind fun p =>
      let r2 := skipWs p.2
      if r2.head? = some ',' then
        (parseItems fuel r2.tail).map fun q => (p.1 :: q.1, q.2)
      else if r2.head? = some ']' then some ([p.1], r2.tail)
      else none

/-- Parse the comma-separated members of a non-empty JSON object,
consuming the closing brace. -/
def parseFields : Nat → List Char → Option (List (String × JVal) × List Char)
  | 0, _ => none
  | fuel + 1, cs =>
    match skipWs cs with
    | [] => none
    | c :: rest =>
      if c = '"' then
        (parseStringChars rest).bind fun pk =>
          let r2 := skipWs pk.2
          if r2.head? = some ':' then
            (parseVal fuel r2.tail).bind fun pv =>
              let r4 := skipWs pv.2
              if r4.head? = some ',' then
                (parseFields fuel r4.tail).map fun q =>
                  ((String.mk pk.1, pv.1) :: q.1, q.2)
              else if r4.head? = some '\x7d' then some ([(String.mk pk.1, pv.1)], r4.tail)
              else none
          else none
      else none
end

/-- `JSON.parse` on a whole string: parse one value and require that only
whitespace remains; `none` models a thrown SyntaxError. -/
def jsonParse (s : String) : Option JVal :=
  match parseVal (s.length + 1) s.data with
  | some (v, rest) =>
    match skipWs rest with
    | [] => some v
    | _ :: _ => none
  | none => none

/-! ### The facade's serialization (cache.ts lines 175-198) -/

/-- `Cache.serialize` (cache.ts lines 175-185): primitives are converted
with `String(data)` (strings verbatim, numbers and booleans as their
direct text), everything else with `JSON.stringify`. -/
def serialize : JVal → String
  | .str s => s
  | .num n => String.mk (intChars n)
  | .bool b => if b then "true" else "false"
  | v => jsonStringify v

/-- `Cache.parse` (cache.ts lines 192-198): try `JSON.parse`; when it
throws, return the raw text verbatim. -/
def parse (data : String) : JVal :=
  match jsonParse data with
  | some v => v
  | none => .str data

/-! ### The remote store state and the client commands used by the facade -/

/-- A stored cache entry: the serialized text and the expiry it was
written with (`none` for a plain write). -/
structure Entry where
  value : String
  ttl : Option Int
  deriving DecidableEq

/-- The remote store: an association list from keys to entries; the most
recent write for a key comes first. -/
abbrev Store := List (String × Entry)

/-- Look up a key in the store. -/
def lookupEntry : Store → String → Option Entry
  | [], _ => none
  | (k, e) :: rest, key => if k = key then some e else lookupEntry rest key

/-- The `GET` command: the stored text, or null for a missing key. -/
def redisGet (st : Store) (key : String) : Option String :=
  (lookupEntry st key).map Entry.value

/-- The `EXISTS` command: the number of the given keys that exist. -/
def redisExists (st : Store) (key : String) : Nat :=
  match lookupEntry st key with
  | some _ => 1
  | none => 0

/-- A write command issued by `Cache.set`: plain `SET` or `SETEX` with an
expiry. -/
inductive RedisWrite where
  | set (key value : String)
  | setex (key : String) (ttl : Int) (value : String)
  deriving DecidableEq

/-- Apply a write command to the store (no time passes, so `SETEX` simply
records its expiry). -/
def applyWrite (st : Store) : RedisWrite → Store
  | .set k v => (k, ⟨v, none⟩) :: st
  | .setex k t v => (k, ⟨v, some t⟩) :: st

/-! ### Error objects and the error-wrapping helper -/

/-- A JS `Error`, reduced to its message. -/
structure JSError where
  message : String
  deriving DecidableEq

/-- The `CacheError` class (src/src/errors/CacheError.ts): `super` sets
`message` to `'Cache ' + operation + ' operation failed: ' + message`,
`name` is `'CacheError'`, and `originalError` is the given error or, when
omitted, `new Error(message)` on the message parameter. -/
structure CacheError where
  name : String
  message : String
  operation : String
  originalError : JSError
  deriving DecidableEq

/-- The `CacheError` constructor. -/
def CacheError.make (operation message : String) (originalError : Option JSError) :
    CacheError :=
  { name := "CacheError"
    message := "Cache " ++ operation ++ " operation failed: " ++ message
    operation := operation
    originalError := originalError.getD ⟨message⟩ }

/-- A value thrown by JS code: an `Error` from the driver, a
`CacheError`, or an arbitrary non-error value (JS permits throwing
anything, e.g. a plain string). -/
inductive Thrown where
  | error (e : JSError)
  | cacheErr (e : CacheError)
  | value (s : String)
  deriving DecidableEq

/-- Outcome of an awaited facade call: a settled value or a thrown one. -/
inductive JSResult (α : Type) where
  | ok (a : α)
  | thrown (t : Thrown)
  deriving DecidableEq

/-- `Cache.handleError` (cache.ts lines 219-228): format the message as
`'Cache <OPERATION> operation failed: <underlying message>'`, log it via
`console.error` (modelled as the returned list of log lines), then return
the fallback when one was supplied (`typeof fallback !== 'undefined'`) and
otherwise throw a `CacheError` built from the operation and the formatted
message.  `fallback := none` models an omitted (undefined) argument. -/
def handleError (operation : String) (error : JSError) (fallback : Option α) :
    List String × Except CacheError α :=
  let message := "Cache " ++ operation ++ " operation failed: " ++ error.message
  ([message],
    match fallback with
    | some v => .ok v
    | none => .error (CacheError.make operation message none))

/-! ### The facade operations -/

/-- The body of `Cache.get`'s try block on received data (cache.ts
lines 76-77): `data ? this.parse(data) : null`.  A missing key and an
empty stored string are both falsy and yield null; JS null is
`JVal.null`. -/
def getResult : Option String → JVal
  | none => .null
  | some s => if s = "" then .null else parse s

/-- `Cache.get` (cache.ts lines 73-82) as a function of the underlying
`GET` command's outcome: on success parse the data, on failure run
`handleError('GET', error, null)` and return its result (a returned
fallback settles the call; a thrown `CacheError` would propagate).
Returns the emitted log lines and the call's outcome. -/
def cacheGet (backend : Except JSError (Option String)) : List String × JSResult JVal :=
  match backend with
  | .ok data => ([], .ok (getResult data))
  | .error e =>
    match handleError "GET" e (some JVal.null) with
    | (logs, .ok v) => (logs, .ok v)
    | (logs, .error ce) => (logs, .thrown (.cacheErr ce))

/-- `Cache.get` on an error-free store. -/
def cacheGetStore (st : Store) (key : String) : JVal :=
  getResult (redisGet st key)

/-- The write issued by `Cache.set` (cache.ts line 96):
`ttl ? setex(key, ttl, serialized) : set(key, serialized)`, where the
JS condition is truthy for a present, nonzero ttl. -/
def setWrite (key : String) (value : JVal) (ttl : Option Int) : RedisWrite :=
  match ttl with
  | some t => if t ≠ 0 then .setex key t (serialize value) else .set key (serialize value)
  | none => .set key (serialize value)

/-- `Cache.set` on an error-free store: apply the issued write. -/
def cacheSetStore (st : Store) (key : String) (value : JVal) (ttl : Option Int) : Store :=
  applyWrite st (setWrite key value ttl)

/-- `Cache.set`'s error handling (cache.ts lines 90-100) as a function of
the underlying write's outcome: on failure,
`throw this.handleError('SET', error)` — with no fallback `handleError`
throws the `CacheError` itself; had it returned, the returned value would
be thrown. -/
def cacheSet (backend : Except JSError String) : List String × JSResult String :=
  match backend with
  | .ok tok => ([], .ok tok)
  | .error e =>
    match handleError "SET" e none with
    | (logs, .error ce) => (logs, .thrown (.cacheErr ce))
    | (logs, .ok v) => (logs, .thrown (.value v))

/-- `Cache.flush` (cache.ts lines 151-158) as a function of the
underlying `FLUSHALL` outcome: on success return the token; on failure,
`throw this.handleError('FLUSH', error, 'OK')` — `handleError` returns
the fallback `'OK'`, and that returned value is thrown. -/
def cacheFlush (backend : Except JSError String) : List String × JSResult String :=
  match backend with
  | .ok tok => ([], .ok tok)
  | .error e =>
    match handleError "FLUSH" e (some "OK") with
    | (logs, .ok v) => (logs, .thrown (.value v))
    | (logs, .error ce) => (logs, .thrown (.cacheErr ce))

/-- `Cache.exists` (cache.ts lines 165-168) on an error-free store:
`(await this.redis.exists(key)) > 0`; no try/catch. -/
def cacheExistsStore (st : Store) (key : String) : Bool :=
  decide (0 < redisExists st key)

/-- The polymorphic `Callback<T>` argument of `remember`/`forever`: a
literal value or a zero-argument function producing one. -/
inductive CacheCallback where
  | value (v : JVal)
  | fn (f : Unit → JVal)

/-- `Cache.resolve` (cache.ts lines 205-210): invoke the argument when it
is a function, otherwise return it.  The second component counts how many
times the callback body ran. -/
def resolve : CacheCallback → JVal × Nat
  | .value v => (v, 0)
  | .fn f => (f (), 1)

/-- Is this JS value null? (`cached !== null` is its negation.) -/
def isNull : JVal → Bool
  | .null => true
  | _ => false

/-- `Cache.remember` (cache.ts lines 109-116) on an error-free store:
get the key; a non-null cached value is returned as-is, otherwise the
callback is resolved, the result written via `set` with the given ttl,
and the result returned.  Returns the value, the number of callback
invocations, and the final store. -/
def remember (st : Store) (key : String) (ttl : Int) (cb : CacheCallback) :
    JVal × Nat × Store :=
  let cached := cacheGetStore st key
  if isNull cached then
    let p := resolve cb
    (p.1, p.2, cacheSetStore st key p.1 (some ttl))
  else (cached, 0, st)

/-! ### Construction and the underlying client (cache.ts lines 39-66) -/

/-- An ioredis client instance: a single-node `Redis` or a `Cluster`.
The id gives instances their identity. -/
inductive RedisClient where
  | single (id : Nat)
  | cluster (id : Nat)
  deriving DecidableEq

/-- The `instanceof Redis` test: `Cluster` is a separate ioredis class
and is not an instance of `Redis`. -/
def isRedisInstance : RedisClient → Bool
  | .single _ => true
  | .cluster _ => false

/-- The first constructor argument: a pre-built client instance, or any
of the other accepted connection parameters (port, host, path, options),
kept opaque. -/
inductive CacheArg where
  | instArg (c : RedisClient)
  | connArg (descr : String)

/-- A constructed `Cache` facade: its stored `redis` field. -/
structure CacheModel where
  redis : RedisClient
  deriving DecidableEq

/-- The `Cache` constructor (cache.ts lines 48-56): when the first
argument is `instanceof Redis` store it directly, otherwise call
`new Redis(...args)` — modelled as a fresh single-node instance with the
supplied fresh id. -/
def cacheCtor (arg : CacheArg) (fresh : Nat) : CacheModel :=
  match arg with
  | .instArg c => if isRedisInstance c then ⟨c⟩ else ⟨.single fresh⟩
  | .connArg _ => ⟨.single fresh⟩

/-- `Cache.client` (cache.ts lines 283-285): return the stored client. -/
def clientMethod (m : CacheModel) : RedisClient := m.redis

/-- `Cache.Cluster` (cache.ts lines 63-66): build
`new Redis.Cluster(nodes, options)` — a cluster instance with a fresh
id — and pass it to the constructor. -/
def cacheClusterFactory (_nodes : List (String × Int)) (_opts : String)
    (clusterId fresh : Nat) : CacheModel :=
  cacheCtor (.instArg (.cluster clusterId)) fresh

/-! ### Proof-support definitions -/

/-- The input does not begin with a decimal digit (so a numeral read
just before it cannot be extended into it). -/
def HeadNotDigit : List Char → Prop
  | [] => True
  | c :: _ => c.isDigit = false

mutual
/-- Fuel required by `parseVal` to parse the JSON text of a value. -/
def sizeV : JVal → Nat
  | .str _ => 1
  | .num _ => 1
  | .bool _ => 1
  | .null => 1
  | .arr xs => sizeItems xs + 1
  | .obj fs => sizeFields fs + 1

/-- Fuel required by `parseItems` for a list of array elements. -/
def sizeItems : List JVal → Nat
  | [] => 1
  | v :: rest => sizeV v + sizeItems rest

/-- Fuel required by `parseFields` for a list of object members. -/
def sizeFields : List (String × JVal) → Nat
  | [] => 1
  | (_, v) :: rest => sizeV v + sizeFields rest
end

/-! ### Character and digit lemmas -/

/-- Facts about `digitChar` on actual digits, by decision. -/
theorem digitChar_facts : ∀ n, n < 10 →
    (digitChar n).isDigit = true ∧ (digitChar n).toNat = 48 + n ∧
      (n ≠ 0 → digitChar n ≠ '0') := by decide

/-- A digit character differs from any non-digit character. -/
theorem isDigit_ne_of_ne (c d : Char) (h : c.isDigit = true) (hd : d.isDigit = false) :
    c ≠ d := by
  intro hc
  rw [hc, hd] at h
  cases h

/-- A digit character is not JSON whitespace. -/
theorem isWsChar_of_isDigit (c : Char) (h : c.isDigit = true) : isWsChar c = false := by
  have h1 := isDigit_ne_of_ne c ' ' h (by decide)
  have h2 := isDigit_ne_of_ne c '\t' h (by decide)
  have h3 := isDigit_ne_of_ne c '\n' h (by decide)
  have h4 := isDigit_ne_of_ne c '\r' h (by decide)
  simp [isWsChar, h1, h2, h3, h4]

/-- Folding digits over an appended list. -/
theorem digitsToNat_append (l1 l2 : List Char) :
    ∀ acc, digitsToNat acc (l1 ++ l2) = digitsToNat (digitsToNat acc l1) l2 := by
  induction l1 with
  | nil => intro acc; rfl
  | cons c cs ih => intro acc; exact ih _

/-- The decimal digits of `n`: the list is nonempty, its head is a
nonzero digit unless `n = 0`, every character is a digit, and folding
the digits back recovers `n`. -/
theorem natChars_spec : ∀ n : Nat,
    (∃ c cs, natChars n = c :: cs ∧ c.isDigit = true ∧ (n ≠ 0 → c ≠ '0')) ∧
      (∀ c ∈ natChars n, c.isDigit = true) ∧
      (∀ acc, digitsToNat acc (natChars n) = acc * 10 ^ (natChars n).length + n) := by
  intro n
  induction n using Nat.strong_induction_on with
  | _ n ih =>
    by_cases h : n < 10
    · rw [natChars, if_pos h]
      obtain ⟨hdig, htn, hz⟩ := digitChar_facts n h
      refine ⟨⟨digitChar n, [], rfl, hdig, hz⟩, ?_, ?_⟩
      · intro c hc
        simp at hc
        rw [hc]; exact hdig
      · intro acc
        have h0 : '0'.toNat = 48 := rfl
        have hd1 : digitsToNat acc [digitChar n]
            = acc * 10 + ((digitChar n).toNat - '0'.toNat) := rfl
        rw [hd1, htn, h0, List.length_singleton, pow_one]
        omega
    · rw [natChars, if_neg h]
      have hlt : n / 10 < n := Nat.div_lt_self (by omega) (by omega)
      obtain ⟨⟨c, cs, hcons, hcdig, hc0⟩, hall, hval⟩ := ih (n / 10) hlt
      have hmod : n % 10 < 10 := Nat.mod_lt _ (by omega)
      obtain ⟨hdig', htn', _⟩ := digitChar_facts (n % 10) hmod
      refine ⟨⟨c, cs ++ [digitChar (n % 10)], by rw [hcons]; rfl, hcdig, ?_⟩, ?_, ?_⟩
      · intro _; exact hc0 (by omega)
      · intro d hd
        rcases List.mem_append.1 hd with hd | hd
        · exact hall d hd
        · simp at hd; rw [hd]; exact hdig'
      · intro acc
        rw [digitsToNat_append, hval acc]
        have h0 : '0'.toNat = 48 := rfl
        have htn2 : (digitChar (n % 10)).toNat - '0'.toNat = n % 10 := by
          rw [htn', h0]; omega
        have hd1 : digitsToNat (acc * 10 ^ (natChars (n / 10)).length + n / 10)
              [digitChar (n % 10)]
            = (acc * 10 ^ (natChars (n / 10)).length + n / 10) * 10
              + ((digitChar (n % 10)).toNat - '0'.toNat) := rfl
        rw [hd1, htn2, List.length_append, List.length_singleton, pow_succ]
        have h10 : n / 10 * 10 + n % 10 = n := by omega
        have hre : acc * (10 ^ (natChars (n / 10)).length * 10) + n
            = acc * (10 ^ (natChars (n / 10)).length * 10) + (n / 10 * 10 + n % 10) := by
          rw [h10]
        rw [hre]
        ring

/-- `spanDigits` on a digit prefix followed by a non-digit head. -/
theorem spanDigits_append : ∀ ds rest : List Char,
    (∀ c ∈ ds, c.isDigit = true) → HeadNotDigit rest →
    spanDigits (ds ++ rest) = (ds, rest) := by
  intro ds
  induction ds with
  | nil =>
    intro rest _ hr
    cases rest with
    | nil => rfl
    | cons c cs =>
      have hc : c.isDigit = false := hr
      simp only [List.nil_append]
      unfold spanDigits
      rw [hc]
      simp
  | cons c cs ih =>
    intro rest hds hr
    have hc : c.isDigit = true := hds c (List.mem_cons_self c cs)
    simp only [List.cons_append]
    unfold spanDigits
    rw [hc, ih rest (fun d hd => hds d (List.mem_cons_of_mem c hd)) hr]
    simp

/-- The parser reads back exactly the decimal digits of `n` when the
following input does not begin with a digit. -/
theorem parseNatNum_natChars : ∀ (n : Nat) (rest : List Char), HeadNotDigit rest →
    parseNatNum (natChars n ++ rest) = some (n, rest) := by
  intro n rest hr
  by_cases hn : n = 0
  · subst hn
    have hz : natChars 0 = ['0'] := by
      rw [natChars]
      norm_num
      rfl
    rw [hz]
    cases rest with
    | nil => rfl
    | cons d ds =>
      have hd : d.isDigit = false := hr
      simp only [List.cons_append, List.nil_append]
      simp only [parseNatNum]
      simp [hd]
  · obtain ⟨⟨c, cs, hcons, hcdig, hc0⟩, hall, hval⟩ := natChars_spec n
    have hc0' : c ≠ '0' := hc0 hn
    rw [hcons]
    simp only [List.cons_append]
    simp only [parseNatNum]
    rw [if_neg hc0', hcdig]
    have hspan : spanDigits (cs ++ rest) = (cs, rest) := by
      refine spanDigits_append cs rest ?_ hr
      intro d hd
      exact hall d (by rw [hcons]; exact List.mem_cons_of_mem c hd)
    rw [hspan]
    simp only []
    have hv : digitsToNat (c.toNat - '0'.toNat) cs = n := by
      have h1 := hval 0
      rw [hcons] at h1
      have h2 : digitsToNat 0 (c :: cs)
          = digitsToNat (0 * 10 + (c.toNat - '0'.toNat)) cs := rfl
      rw [h2] at h1
      simpa using h1
    rw [hv]
    simp

/-- The parser reads back exactly the decimal text of an integer when
the following input does not begin with a digit. -/
theorem parseNum_intChars : ∀ (n : Int) (rest : List Char), HeadNotDigit rest →
    parseNum (intChars n ++ rest) = some (n, rest) := by
  intro n rest hr
  by_cases hneg : n < 0
  · rw [intChars, if_pos hneg]
    simp only [List.cons_append, parseNum]
    rw [if_pos trivial, parseNatNum_natChars n.natAbs rest hr]
    have habs : -((n.natAbs : Nat) : Int) = n := by omega
    show some (-((n.natAbs : Nat) : Int), rest) = some (n, rest)
    rw [habs]
  · rw [intChars, if_neg hneg]
    obtain ⟨⟨c, cs, hcons, hcdig, _⟩, _, _⟩ := natChars_spec n.natAbs
    have hcm : c ≠ '-' := isDigit_ne_of_ne c '-' hcdig (by decide)
    rw [hcons]
    simp only [List.cons_append, parseNum]
    rw [if_neg hcm]
    have : (c :: (cs ++ rest)) = natChars n.natAbs ++ rest := by
      rw [hcons]; rfl
    rw [this, parseNatNum_natChars n.natAbs rest hr]
    have habs : ((n.natAbs : Nat) : Int) = n := by omega
    show some (((n.natAbs : Nat) : Int), rest) = some (n, rest)
    rw [habs]

/-- Hex digits below 16 round-trip through `hexDigitChar`/`hexVal`. -/
theorem hexVal_hexDigitChar : ∀ m, m < 16 → hexVal (hexDigitChar m) = some m := by decide

/-- Consuming one short escape at the head of a string body. -/
theorem parseStringChars_shortEsc (e u : Char) (he : unescapeChar e = some u)
    (he2 : e ≠ 'u') (tail : List Char) :
    parseStringChars ('\\' :: e :: tail)
      = (parseStringChars tail).map fun p => (u :: p.1, p.2) := by
  rw [parseStringChars.eq_def]
  simp [he, he2]

/-- Consuming a `\u00XY` escape at the head of a string body. -/
theorem parseStringChars_uEsc (x3 x4 : Char) (tail : List Char) :
    parseStringChars ('\\' :: 'u' :: '0' :: '0' :: x3 :: x4 :: tail)
      = (hexVal x3).bind fun v3 => (hexVal x4).bind fun v4 =>
          (parseStringChars tail).map fun p =>
            (Char.ofNat (((0 * 16 + 0) * 16 + v3) * 16 + v4) :: p.1, p.2) := by
  rw [parseStringChars.eq_def]
  simp [show hexVal '0' = some 0 from rfl]

/-- Consuming a plain character at the head of a string body. -/
theorem parseStringChars_plain (c : Char) (h1 : c ≠ '"') (h2 : c ≠ '\\')
    (h6 : ¬c.toNat < 32) (tail : List Char) :
    parseStringChars (c :: tail)
      = (parseStringChars tail).map fun p => (c :: p.1, p.2) := by
  rw [parseStringChars.eq_def]
  simp only []
  rw [if_neg h1, if_neg h2, if_neg h6]

/-- Closing quote at the head of a string body. -/
theorem parseStringChars_quote (tail : List Char) :
    parseStringChars ('"' :: tail) = some ([], tail) := by
  rw [parseStringChars.eq_def]
  rfl

/-- The string-body parser undoes `JSON.stringify` escaping: it consumes
the escaped characters and the closing quote, restoring the original
characters. -/
theorem parseStringChars_escape : ∀ (l rest : List Char),
    parseStringChars (escapeChars l ++ '"' :: rest) = some (l, rest) := by
  intro l
  induction l with
  | nil =>
    intro rest
    simp only [escapeChars, List.nil_append]
    exact parseStringChars_quote rest
  | cons c l ih =>
    intro rest
    simp only [escapeChars, List.append_assoc]
    by_cases h1 : c = '"'
    · subst h1
      rw [show escapeChar '"' = ['\\', '"'] from rfl]
      simp only [List.cons_append, List.nil_append]
      rw [parseStringChars_shortEsc '"' '"' rfl (by decide), ih rest]
      rfl
    · by_cases h2 : c = '\\'
      · subst h2
        rw [show escapeChar '\\' = ['\\', '\\'] from rfl]
        simp only [List.cons_append, List.nil_append]
        rw [parseStringChars_shortEsc '\\' '\\' rfl (by decide), ih rest]
        rfl
      · by_cases h3 : c = '\n'
        · subst h3
          rw [show escapeChar '\n' = ['\\', 'n'] from rfl]
          simp only [List.cons_append, List.nil_append]
          rw [parseStringChars_shortEsc 'n' '\n' rfl (by decide), ih rest]
          rfl
        · by_cases h4 : c = '\r'
          · subst h4
            rw [show escapeChar '\r' = ['\\', 'r'] from rfl]
            simp only [List.cons_append, List.nil_append]
            rw [parseStringChars_shortEsc 'r' '\r' rfl (by decide), ih rest]
            rfl
          · by_cases h5 : c = '\t'
            · subst h5
              rw [show escapeChar '\t' = ['\\', 't'] from rfl]
              simp only [List.cons_append, List.nil_append]
              rw [parseStringChars_shortEsc 't' '\t' rfl (by decide), ih rest]
              rfl
            · by_cases h6 : c.toNat < 32
              · have hesc : escapeChar c
                    = ['\\', 'u', '0', '0', hexDigitChar (c.toNat / 16),
                        hexDigitChar (c.toNat % 16)] := by
                  rw [escapeChar, if_neg h1, if_neg h2, if_neg h3, if_neg h4, if_neg h5,
                    if_pos h6]
                rw [hesc]
                simp only [List.cons_append, List.nil_append]
                rw [parseStringChars_uEsc,
                  hexVal_hexDigitChar (c.toNat / 16) (by omega),
                  hexVal_hexDigitChar (c.toNat % 16) (by omega)]
                simp only [Option.some_bind]
                have harith : ((0 * 16 + 0) * 16 + c.toNat / 16) * 16 + c.toNat % 16
                    = c.toNat := by omega
                rw [harith, Char.ofNat_toNat, ih rest]
                rfl
              · have hesc : escapeChar c = [c] := by
                  rw [escapeChar, if_neg h1, if_neg h2, if_neg h3, if_neg h4, if_neg h5,
                    if_neg h6]
                rw [hesc]
                simp only [List.cons_append, List.nil_append]
                rw [parseStringChars_plain c h1 h2 h6, ih rest]
                rfl

/-- `skipWs` leaves input beginning with non-whitespace untouched. -/
theorem skipWs_not_ws (c : Char) (cs : List Char) (h : isWsChar c = false) :
    skipWs (c :: cs) = c :: cs := by
  rw [skipWs.eq_2, h]
  simp

mutual
/-- Every value needs at least one unit of fuel. -/
theorem sizeV_pos : ∀ v : JVal, 1 ≤ sizeV v := by
  intro v
  cases v with
  | arr xs => have := sizeItems_pos xs; simp [sizeV]
  | obj fs => have := sizeFields_pos fs; simp [sizeV]
  | _ => simp [sizeV]

/-- Element lists need at least one unit of fuel. -/
theorem sizeItems_pos : ∀ xs : List JVal, 1 ≤ sizeItems xs := by
  intro xs
  cases xs with
  | nil => simp [sizeItems]
  | cons v rest =>
    have h1 := sizeV_pos v
    have h2 := sizeItems_pos rest
    simp [sizeItems]; omega

/-- Member lists need at least one unit of fuel. -/
theorem sizeFields_pos : ∀ fs : List (String × JVal), 1 ≤ sizeFields fs := by
  intro fs
  cases fs with
  | nil => simp [sizeFields]
  | cons kv rest =>
    have h1 := sizeV_pos kv.2
    have h2 := sizeFields_pos rest
    cases kv; simp [sizeFields] at h1 ⊢; omega
end

/-- A one-element list of array items prints as the item itself. -/
theorem stringifyItems_single (v : JVal) : stringifyItems [v] = stringifyV v := by
  simp [stringifyItems]

/-- A longer list of array items prints head, comma, tail. -/
theorem stringifyItems_cons2 (v w : JVal) (tl : List JVal) :
    stringifyItems (v :: w :: tl) = stringifyV v ++ ',' :: stringifyItems (w :: tl) := by
  simp [stringifyItems]

/-- A one-member object body prints as quoted key, colon, value. -/
theorem stringifyFields_single (k : String) (v : JVal) :
    stringifyFields [(k, v)] = '"' :: escapeChars k.data ++ '"' :: ':' :: stringifyV v := by
  simp [stringifyFields]

/-- A longer object body prints first member, comma, remaining members. -/
theorem stringifyFields_cons2 (k : String) (v : JVal) (p : String × JVal)
    (tl : List (String × JVal)) :
    stringifyFields ((k, v) :: p :: tl)
      = '"' :: escapeChars k.data ++ '"' :: ':' :: stringifyV v
          ++ ',' :: stringifyFields (p :: tl) := by
  cases p
  simp [stringifyFields]

/-- `HeadNotDigit` holds for empty input. -/
theorem headNotDigit_nil : HeadNotDigit [] := trivial

/-- `HeadNotDigit` holds when the head is not a digit. -/
theorem headNotDigit_cons (c : Char) (cs : List Char) (h : c.isDigit = false) :
    HeadNotDigit (c :: cs) := h

/-- The JSON text of any value begins with a non-whitespace character
that is neither a closing bracket nor a closing brace. -/
theorem stringifyV_head (v : JVal) : ∃ c cs, stringifyV v = c :: cs ∧
    isWsChar c = false ∧ c ≠ ']' ∧ c ≠ '\x7d' := by
  cases v with
  | str s =>
    exact ⟨'"', escapeChars s.data ++ ['"'], by simp [stringifyV], by decide, by decide,
      by decide⟩
  | num n =>
    by_cases hneg : n < 0
    · refine ⟨'-', natChars n.natAbs, ?_, by decide, by decide, by decide⟩
      simp [stringifyV, intChars, hneg]
    · obtain ⟨⟨c, cs, hcons, hcdig, _⟩, _, _⟩ := natChars_spec n.natAbs
      refine ⟨c, cs, ?_, isWsChar_of_isDigit c hcdig,
        isDigit_ne_of_ne c ']' hcdig (by decide),
        isDigit_ne_of_ne c '\x7d' hcdig (by decide)⟩
      simp [stringifyV, intChars, hneg, hcons]
  | bool b =>
    cases b with
    | true => exact ⟨'t', _, by simp [stringifyV]; rfl, by decide, by decide, by decide⟩
    | false => exact ⟨'f', _, by simp [stringifyV]; rfl, by decide, by decide, by decide⟩
  | null => exact ⟨'n', _, by simp [stringifyV]; rfl, by decide, by decide, by decide⟩
  | arr xs =>
    exact ⟨'[', stringifyItems xs ++ [']'], by simp [stringifyV], by decide, by decide,
      by decide⟩
  | obj fs =>
    exact ⟨'\x7b', stringifyFields fs ++ ['\x7d'], by simp [stringifyV], by decide,
      by decide, by decide⟩

/-- Dispatch: a quote begins a string. -/
theorem parseVal_succ_quote (f : Nat) (tail : List Char) :
    parseVal (f + 1) ('"' :: tail)
      = (parseStringChars tail).map fun p => (JVal.str (String.mk p.1), p.2) := by
  rw [parseVal.eq_2, skipWs_not_ws _ _ (by decide)]
  simp

/-- Dispatch: `n` begins the `null` literal. -/
theorem parseVal_succ_n (f : Nat) (tail : List Char) :
    parseVal (f + 1) ('n' :: tail)
      = (expectLit "ull".data tail).map fun r => (JVal.null, r) := by
  rw [parseVal.eq_2, skipWs_not_ws _ _ (by decide)]
  simp

/-- Dispatch: `t` begins the `true` literal. -/
theorem parseVal_succ_t (f : Nat) (tail : List Char) :
    parseVal (f + 1) ('t' :: tail)
      = (expectLit "rue".data tail).map fun r => (JVal.bool true, r) := by
  rw [parseVal.eq_2, skipWs_not_ws _ _ (by decide)]
  simp

/-- Dispatch: `f` begins the `false` literal. -/
theorem parseVal_succ_f (f : Nat) (tail : List Char) :
    parseVal (f + 1) ('f' :: tail)
      = (expectLit "alse".data tail).map fun r => (JVal.bool false, r) := by
  rw [parseVal.eq_2, skipWs_not_ws _ _ (by decide)]
  simp

/-- Dispatch: `[` begins an array. -/
theorem parseVal_succ_lbrack (f : Nat) (tail : List Char) :
    parseVal (f + 1) ('[' :: tail)
      = (if (skipWs tail).head? = some ']' then some (JVal.arr [], (skipWs tail).tail)
          else (parseItems f (skipWs tail)).map fun p => (JVal.arr p.1, p.2)) := by
  rw [parseVal.eq_2, skipWs_not_ws _ _ (by decide)]
  simp

/-- Dispatch: `{` begins an object. -/
theorem parseVal_succ_lbrace (f : Nat) (tail : List Char) :
    parseVal (f + 1) ('\x7b' :: tail)
      = (if (skipWs tail).head? = some '\x7d' then some (JVal.obj [], (skipWs tail).tail)
          else (parseFields f (skipWs tail)).map fun p => (JVal.obj p.1, p.2)) := by
  rw [parseVal.eq_2, skipWs_not_ws _ _ (by decide)]
  simp

/-- Dispatch: a minus sign begins a numeral. -/
theorem parseVal_succ_minus (f : Nat) (tail : List Char) :
    parseVal (f + 1) ('-' :: tail)
      = (parseNum ('-' :: tail)).map fun p => (JVal.num p.1, p.2) := by
  rw [parseVal.eq_2, skipWs_not_ws _ _ (by decide)]
  simp

/-- Dispatch: a digit begins a numeral. -/
theorem parseVal_succ_digit (c : Char) (h : c.isDigit = true) (f : Nat)
    (tail : List Char) :
    parseVal (f + 1) (c :: tail)
      = (parseNum (c :: tail)).map fun p => (JVal.num p.1, p.2) := by
  rw [parseVal.eq_2, skipWs_not_ws _ _ (isWsChar_of_isDigit c h)]
  simp only []
  rw [if_neg (isDigit_ne_of_ne c 'n' h (by decide)),
    if_neg (isDigit_ne_of_ne c 't' h (by decide)),
    if_neg (isDigit_ne_of_ne c 'f' h (by decide)),
    if_neg (isDigit_ne_of_ne c '"' h (by decide)),
    if_neg (isDigit_ne_of_ne c '[' h (by decide)),
    if_neg (isDigit_ne_of_ne c '\x7b' h (by decide)),
    if_pos (Or.inr h)]

/-- One step of `parseItems`. -/
theorem parseItems_succ (f : Nat) (cs : List Char) :
    parseItems (f + 1) cs
      = (parseVal f cs).bind fun p =>
          if (skipWs p.2).head? = some ',' then
            (parseItems f (skipWs p.2).tail).map fun q => (p.1 :: q.1, q.2)
          else if (skipWs p.2).head? = some ']' then some ([p.1], (skipWs p.2).tail)
          else none := by
  rw [parseItems.eq_2]

/-- One step of `parseFields` on a quoted key. -/
theorem parseFields_succ_quote (f : Nat) (tail : List Char) :
    parseFields (f + 1) ('"' :: tail)
      = ((parseStringChars tail).bind fun pk =>
          if (skipWs pk.2).head? = some ':' then
            (parseVal f (skipWs pk.2).tail).bind fun pv =>
              if (skipWs pv.2).head? = some ',' then
                (parseFields f (skipWs pv.2).tail).map fun q =>
                  ((String.mk pk.1, pv.1) :: q.1, q.2)
              else if (skipWs pv.2).head? = some '\x7d' then
                some ([(String.mk pk.1, pv.1)], (skipWs pv.2).tail)
              else none
          else none) := by
  rw [parseFields.eq_2, skipWs_not_ws _ _ (by decide)]
  simp

mutual
/-- Parsing inverts printing for one value: given enough fuel and
following input that cannot extend a numeral, `parseVal` consumes exactly
the JSON text of `v` and returns `v`. -/
theorem parseVal_stringify : ∀ (v : JVal) (fuel : Nat) (rest : List Char),
    sizeV v ≤ fuel → HeadNotDigit rest →
    parseVal fuel (stringifyV v ++ rest) = some (v, rest) := by
  intro v fuel rest hsz hr
  cases fuel with
  | zero => have := sizeV_pos v; omega
  | succ f =>
    cases v with
    | null =>
      have h0 : stringifyV JVal.null = ['n', 'u', 'l', 'l'] := by
        simp [stringifyV]
      rw [h0, show (['n', 'u', 'l', 'l'] : List Char) ++ rest
        = 'n' :: 'u' :: 'l' :: 'l' :: rest from rfl, parseVal_succ_n]
      rfl
    | bool b =>
      cases b with
      | true =>
        have h0 : stringifyV (JVal.bool true) = ['t', 'r', 'u', 'e'] := by
          simp [stringifyV]
        rw [h0, show (['t', 'r', 'u', 'e'] : List Char) ++ rest
          = 't' :: 'r' :: 'u' :: 'e' :: rest from rfl, parseVal_succ_t]
        rfl
      | false =>
        have h0 : stringifyV (JVal.bool false) = ['f', 'a', 'l', 's', 'e'] := by
          simp [stringifyV]
        rw [h0, show (['f', 'a', 'l', 's', 'e'] : List Char) ++ rest
          = 'f' :: 'a' :: 'l' :: 's' :: 'e' :: rest from rfl, parseVal_succ_f]
        rfl
    | str s =>
      have h0 : stringifyV (JVal.str s) ++ rest
          = '"' :: (escapeChars s.data ++ '"' :: rest) := by
        simp [stringifyV]
      rw [h0, parseVal_succ_quote, parseStringChars_escape s.data rest]
      rfl
    | num n =>
      by_cases hneg : n < 0
      · have h0 : stringifyV (JVal.num n) ++ rest = '-' :: (natChars n.natAbs ++ rest) := by
          simp [stringifyV, intChars, hneg]
        rw [h0, parseVal_succ_minus]
        have h1 : ('-' :: (natChars n.natAbs ++ rest)) = intChars n ++ rest := by
          simp [intChars, hneg]
        rw [h1, parseNum_intChars n rest hr]
        rfl
      · obtain ⟨⟨c, cs, hcons, hcdig, _⟩, _, _⟩ := natChars_spec n.natAbs
        have h0 : stringifyV (JVal.num n) ++ rest = c :: (cs ++ rest) := by
          simp [stringifyV, intChars, hneg, hcons]
        rw [h0, parseVal_succ_digit c hcdig]
        have h1 : (c :: (cs ++ rest)) = intChars n ++ rest := by
          simp [intChars, hneg, hcons]
        rw [h1, parseNum_intChars n rest hr]
        rfl
    | arr xs =>
      have h0 : stringifyV (JVal.arr xs) ++ rest
          = '[' :: (stringifyItems xs ++ ']' :: rest) := by
        simp [stringifyV]
      rw [h0, parseVal_succ_lbrack]
      cases xs with
      | nil =>
        rw [show stringifyItems ([] : List JVal) ++ ']' :: rest = ']' :: rest from by
          simp [stringifyItems], skipWs_not_ws _ _ (by decide)]
        simp
      | cons hd tl =>
        obtain ⟨c0, cs0, hc0, hws0, hnb0, _⟩ := stringifyV_head hd
        have hT : ∃ T, stringifyItems (hd :: tl) ++ ']' :: rest = c0 :: T := by
          cases tl with
          | nil => exact ⟨cs0 ++ ']' :: rest, by rw [stringifyItems_single, hc0]; simp⟩
          | cons w tl' =>
            exact ⟨cs0 ++ ',' :: stringifyItems (w :: tl') ++ ']' :: rest,
              by rw [stringifyItems_cons2, hc0]; simp⟩
        obtain ⟨T, hT⟩ := hT
        rw [hT, skipWs_not_ws _ _ hws0]
        rw [if_neg (by simp [hnb0])]
        rw [← hT, parseItems_stringify (hd :: tl) f rest (by simp)
          (by have h := hsz; simp [sizeV] at h; omega)]
        rfl
    | obj fs =>
      have h0 : stringifyV (JVal.obj fs) ++ rest
          = '\x7b' :: (stringifyFields fs ++ '\x7d' :: rest) := by
        simp [stringifyV]
      rw [h0, parseVal_succ_lbrace]
      cases fs with
      | nil =>
        rw [show stringifyFields ([] : List (String × JVal)) ++ '\x7d' :: rest
          = '\x7d' :: rest from by simp [stringifyFields], skipWs_not_ws _ _ (by decide)]
        simp
      | cons kv tl =>
        obtain ⟨k, v⟩ := kv
        have hT : ∃ T, stringifyFields ((k, v) :: tl) ++ '\x7d' :: rest = '"' :: T := by
          cases tl with
          | nil =>
            exact ⟨escapeChars k.data ++ '"' :: ':' :: stringifyV v ++ '\x7d' :: rest,
              by rw [stringifyFields_single]; simp⟩
          | cons p tl' =>
            exact ⟨escapeChars k.data ++ '"' :: ':' :: stringifyV v
                ++ ',' :: stringifyFields (p :: tl') ++ '\x7d' :: rest,
              by rw [stringifyFields_cons2]; simp⟩
        obtain ⟨T, hT⟩ := hT
        rw [hT, skipWs_not_ws _ _ (by decide)]
        rw [if_neg (by simp)]
        rw [← hT, parseFields_stringify ((k, v) :: tl) f rest (by simp)
          (by have h := hsz; simp [sizeV] at h; omega)]
        rfl

/-- Parsing inverts printing for a non-empty array body up to and
including the closing bracket. -/
theorem parseItems_stringify : ∀ (xs : List JVal) (fuel : Nat) (rest : List Char),
    xs ≠ [] → sizeItems xs ≤ fuel →
    parseItems fuel (stringifyItems xs ++ ']' :: rest) = some (xs, rest) := by
  intro xs fuel rest hne hsz
  cases xs with
  | nil => exact absurd rfl hne
  | cons v tl =>
    have hszv := sizeV_pos v
    have hszt := sizeItems_pos tl
    simp only [sizeItems] at hsz
    cases fuel with
    | zero => omega
    | succ f =>
      rw [parseItems_succ]
      cases tl with
      | nil =>
        rw [stringifyItems_single,
          parseVal_stringify v f (']' :: rest) (by omega)
            (headNotDigit_cons _ _ (by decide))]
        simp only [Option.some_bind]
        rw [skipWs_not_ws _ _ (by decide)]
        simp
      | cons w tl' =>
        have h1 : stringifyItems (v :: w :: tl') ++ ']' :: rest
            = stringifyV v ++ ',' :: (stringifyItems (w :: tl') ++ ']' :: rest) := by
          rw [stringifyItems_cons2]; simp
        rw [h1, parseVal_stringify v f _ (by omega)
          (headNotDigit_cons _ _ (by decide))]
        simp only [Option.some_bind]
        rw [skipWs_not_ws _ _ (by decide)]
        simp only [List.head?_cons, List.tail_cons]
        rw [if_pos trivial, parseItems_stringify (w :: tl') f rest (by simp)
          (by have h2 := sizeItems_pos (w :: tl'); omega)]
        rfl

/-- Parsing inverts printing for a non-empty object body up to and
including the closing brace. -/
theorem parseFields_stringify : ∀ (fs : List (String × JVal)) (fuel : Nat)
    (rest : List Char), fs ≠ [] → sizeFields fs ≤ fuel →
    parseFields fuel (stringifyFields fs ++ '\x7d' :: rest) = some (fs, rest) := by
  intro fs fuel rest hne hsz
  cases fs with
  | nil => exact absurd rfl hne
  | cons kv tl =>
    obtain ⟨k, v⟩ := kv
    have hszv := sizeV_pos v
    have hszt := sizeFields_pos tl
    simp only [sizeFields] at hsz
    cases fuel with
    | zero => omega
    | succ f =>
      cases tl with
      | nil =>
        have h1 : stringifyFields [(k, v)] ++ '\x7d' :: rest
            = '"' :: (escapeChars k.data ++ '"' :: (':' :: (stringifyV v ++ '\x7d' :: rest))) := by
          rw [stringifyFields_single]; simp
        rw [h1, parseFields_succ_quote, parseStringChars_escape k.data]
        simp only [Option.some_bind]
        rw [skipWs_not_ws _ _ (by decide)]
        simp only [List.head?_cons, List.tail_cons]
        rw [if_pos trivial,
          parseVal_stringify v f ('\x7d' :: rest) (by omega)
            (headNotDigit_cons _ _ (by decide))]
        simp only [Option.some_bind]
        rw [skipWs_not_ws _ _ (by decide)]
        simp
      | cons p tl' =>
        have h1 : stringifyFields ((k, v) :: p :: tl') ++ '\x7d' :: rest
            = '"' :: (escapeChars k.data ++ '"' :: (':' :: (stringifyV v
                ++ ',' :: (stringifyFields (p :: tl') ++ '\x7d' :: rest)))) := by
          rw [stringifyFields_cons2]; simp
        rw [h1, parseFields_succ_quote, parseStringChars_escape k.data]
        simp only [Option.some_bind]
        rw [skipWs_not_ws _ _ (by decide)]
        simp only [List.head?_cons, List.tail_cons]
        rw [if_pos trivial,
          parseVal_stringify v f _ (by omega) (headNotDigit_cons _ _ (by decide))]
        simp only [Option.some_bind]
        rw [skipWs_not_ws _ _ (by decide)]
        simp only [List.head?_cons, List.tail_cons]
        rw [if_pos trivial, parseFields_stringify (p :: tl') f rest (by simp)
          (by have h2 := sizeFields_pos (p :: tl'); omega)]
        rfl
end

/-- The integer text is never empty. -/
theorem intChars_ne_nil (n : Int) : intChars n ≠ [] := by
  by_cases hneg : n < 0
  · simp [intChars, hneg]
  · obtain ⟨⟨c, cs, hcons, _, _⟩, _, _⟩ := natChars_spec n.natAbs
    simp [intChars, hneg, hcons]

mutual
/-- The fuel needed for a value is at most its printed length. -/
theorem sizeV_le : ∀ v : JVal, sizeV v ≤ (stringifyV v).length := by
  intro v
  cases v with
  | str s => simp [sizeV, stringifyV]
  | num n =>
    have h1 := List.length_pos.mpr (intChars_ne_nil n)
    simp only [sizeV, stringifyV]
    omega
  | bool b => cases b <;> simp [sizeV, stringifyV]
  | null => simp [sizeV, stringifyV]
  | arr xs =>
    have h1 := sizeItems_le xs
    simp only [sizeV, stringifyV] at h1 ⊢
    simp only [List.length_cons, List.length_append, List.length_singleton]
    omega
  | obj fs =>
    have h1 := sizeFields_le fs
    simp only [sizeV, stringifyV] at h1 ⊢
    simp only [List.length_cons, List.length_append, List.length_singleton]
    omega

/-- The fuel needed for array items is at most their printed length
plus one. -/
theorem sizeItems_le : ∀ xs : List JVal, sizeItems xs ≤ (stringifyItems xs).length + 1 := by
  intro xs
  cases xs with
  | nil => simp [sizeItems, stringifyItems]
  | cons v tl =>
    have hv := sizeV_le v
    cases tl with
    | nil =>
      rw [stringifyItems_single]
      simp only [sizeItems]
      omega
    | cons w tl' =>
      have ht := sizeItems_le (w :: tl')
      rw [stringifyItems_cons2]
      simp only [sizeItems] at ht ⊢
      simp only [List.length_append, List.length_cons]
      omega

/-- The fuel needed for object members is at most their printed length
plus one. -/
theorem sizeFields_le : ∀ fs : List (String × JVal),
    sizeFields fs ≤ (stringifyFields fs).length + 1 := by
  intro fs
  cases fs with
  | nil => simp [sizeFields, stringifyFields]
  | cons kv tl =>
    obtain ⟨k, v⟩ := kv
    have hv := sizeV_le v
    cases tl with
    | nil =>
      rw [stringifyFields_single]
      simp only [sizeFields]
      simp only [List.length_cons, List.length_append]
      omega
    | cons p tl' =>
      have ht := sizeFields_le (p :: tl')
      rw [stringifyFields_cons2]
      simp only [sizeFields] at ht ⊢
      simp only [List.length_append, List.length_cons]
      omega
end

/-- `JSON.parse` inverts `JSON.stringify` on every value of the model. -/
theorem jsonParse_stringify (v : JVal) : jsonParse (jsonStringify v) = some v := by
  unfold jsonParse
  have hdata : (jsonStringify v).data = stringifyV v := rfl
  have hlen : (jsonStringify v).length = (stringifyV v).length := rfl
  rw [hdata, hlen]
  have h := parseVal_stringify v ((stringifyV v).length + 1) []
    (by have := sizeV_le v; omega) headNotDigit_nil
  rw [List.append_nil] at h
  rw [h]
  rfl

/-- For non-string values the facade serialization is the JSON text:
`String(n)` agrees with the JSON numeral, `String(b)` with the JSON
boolean, and the remaining cases call `JSON.stringify` directly. -/
theorem serialize_of_not_str (v : JVal) (h : ∀ s, v ≠ JVal.str s) :
    serialize v = jsonStringify v := by
  cases v with
  | str s => exact absurd rfl (h s)
  | num n => simp [serialize, jsonStringify, stringifyV]
  | bool b => cases b <;> simp [serialize, jsonStringify, stringifyV]
  | null => rfl
  | arr xs => rfl
  | obj fs => rfl

/-- Serialization never yields the empty string except for the empty
string value itself. -/
theorem serialize_ne_empty (v : JVal)
    (hs : ∀ s, v = JVal.str s → s ≠ "" ∧ jsonParse s = none) : serialize v ≠ "" := by
  by_cases hstr : ∃ s, v = JVal.str s
  · obtain ⟨s, rfl⟩ := hstr
    simpa [serialize] using (hs s rfl).1
  · have hns : ∀ s, v ≠ JVal.str s := fun s h => hstr ⟨s, h⟩
    rw [serialize_of_not_str v hns]
    obtain ⟨c, cs, hc, _, _, _⟩ := stringifyV_head v
    intro h
    have h2 : stringifyV v = [] := congrArg String.data h
    rw [hc] at h2
    cases h2

/-- The facade's parse inverts its serialize on every value that is not
a string, and on strings that are non-empty and not JSON text. -/
theorem parse_serialize (v : JVal)
    (hs : ∀ s, v = JVal.str s → s ≠ "" ∧ jsonParse s = none) :
    parse (serialize v) = v := by
  by_cases hstr : ∃ s, v = JVal.str s
  · obtain ⟨s, rfl⟩ := hstr
    obtain ⟨_, hnp⟩ := hs s rfl
    simp [serialize, parse, hnp]
  · have hns : ∀ s, v ≠ JVal.str s := fun s h => hstr ⟨s, h⟩
    rw [serialize_of_not_str v hns]
    unfold parse
    rw [jsonParse_stringify v]

/-- `cached !== null` fails exactly on null. -/
theorem isNull_eq_false (v : JVal) (h : v ≠ JVal.null) : isNull v = false := by
  cases v with
  | null => exact absurd rfl h
  | str s => rfl
  | num n => rfl
  | bool b => rfl
  | arr xs => rfl
  | obj fs => rfl

/-- Appending a nonempty prefix changes a string. -/
theorem prefix_append_ne (p m : String) (hp : p.length ≠ 0) : p ++ m ≠ m := by
  intro h
  have h2 := congrArg String.length h
  rw [String.length_append] at h2
  omega

/-! ### The claims -/

/-- C1: the claim states that on a FLUSHALL failure `flush` logs a
diagnostic line and returns the confirmation token 'OK' without raising.
The code logs, but then executes `throw this.handleError('FLUSH', error,
'OK')`: `handleError` RETURNS the fallback 'OK', and `flush` throws that
returned value.  Evaluated on an arbitrary failing backend outcome, the
call logs the formatted line and throws the string 'OK'; it never
settles with a value. -/
theorem flush_error_throws_token (e : JSError) :
    cacheFlush (.error e)
      = (["Cache FLUSH operation failed: " ++ e.message], .thrown (.value "OK"))
    ∧ ∀ tok, (cacheFlush (.error e)).2 ≠ .ok tok := by
  refine ⟨rfl, fun tok h => ?_⟩
  have h2 : (cacheFlush (.error e)).2 = .thrown (.value "OK") := rfl
  rw [h2] at h
  exact JSResult.noConfusion h

/-- C2 counterexample: storing the string "5" with TTL 1 and immediately
reading the key back yields the number 5, which is not deep-equal to the
string "5" — the claimed round-trip fails as stated. -/
theorem set_get_roundtrip_cex :
    cacheGetStore (cacheSetStore [] "k" (JVal.str "5") (some 1)) "k" = JVal.num 5
    ∧ JVal.num 5 ≠ JVal.str "5" :=
  ⟨rfl, fun h => JVal.noConfusion h⟩

/-- C2 (amended): for every store, key, Serializable value and TTL t > 0,
`set(k, v, t)` followed immediately by `get(k)` returns a value
deep-equal to v, provided that a string value is non-empty and not itself
valid JSON text; a string that is JSON text is returned as the value it
denotes (for example "5" comes back as the number 5) and the empty string
comes back as the absent value. -/
theorem set_get_roundtrip (st : Store) (k : String) (v : JVal) (t : Int)
    (ht : 0 < t) (hs : ∀ s, v = JVal.str s → s ≠ "" ∧ jsonParse s = none) :
    cacheGetStore (cacheSetStore st k v (some t)) k = v := by
  have hw : setWrite k v (some t) = RedisWrite.setex k t (serialize v) := by
    have ht' : t ≠ 0 := by omega
    simp [setWrite, ht']
  unfold cacheSetStore
  rw [hw]
  unfold cacheGetStore redisGet applyWrite lookupEntry
  rw [if_pos rfl]
  show (if serialize v = "" then JVal.null else parse (serialize v)) = v
  rw [if_neg (serialize_ne_empty v hs), parse_serialize v hs]

/-- C2 witness: the amended theorem applied to the spec's own scenario
value, a plain string that is not JSON text. -/
theorem set_get_roundtrip_witness :
    cacheGetStore (cacheSetStore [] "user" (JVal.str "John Doe") (some 3600)) "user"
      = JVal.str "John Doe" :=
  set_get_roundtrip [] "user" (JVal.str "John Doe") 3600 (by decide)
    (fun s h => by cases h; exact ⟨by decide, rfl⟩)

/-- C3: `remember` on an absent key (get null) resolves the source —
invoking a function source exactly once, a literal source not at all —
writes the resolved value with the given nonzero TTL via a
write-with-expiry, and returns it; and whenever get returns a non-absent
value, `remember` returns that cached value with zero source invocations
and an unchanged store. -/
theorem remember_spec :
    (∀ (st : Store) (k : String) (t : Int) (f : Unit → JVal), t ≠ 0 →
        cacheGetStore st k = JVal.null →
        remember st k t (.fn f)
          = (f (), 1, applyWrite st (.setex k t (serialize (f ())))))
    ∧ (∀ (st : Store) (k : String) (t : Int) (v : JVal), t ≠ 0 →
        cacheGetStore st k = JVal.null →
        remember st k t (.value v) = (v, 0, applyWrite st (.setex k t (serialize v))))
    ∧ (∀ (st : Store) (k : String) (t : Int) (cb : CacheCallback),
        cacheGetStore st k ≠ JVal.null →
        remember st k t cb = (cacheGetStore st k, 0, st)) := by
  refine ⟨?_, ?_, ?_⟩
  · intro st k t f ht hget
    simp [remember, hget, isNull, resolve, cacheSetStore, setWrite, ht]
  · intro st k t v ht hget
    simp [remember, hget, isNull, resolve, cacheSetStore, setWrite, ht]
  · intro st k t cb hne
    simp [remember, isNull_eq_false _ hne]

/-- C3 witness: the miss path with a function source (one invocation,
SETEX write), the miss path with a literal source, and the hit path on a
store already holding the key. -/
theorem remember_spec_witness :
    remember [] "k" 3600 (.fn fun _ => JVal.bool true)
        = (JVal.bool true, 1, applyWrite [] (.setex "k" 3600 (serialize (JVal.bool true))))
    ∧ remember [] "k2" 5 (.value (JVal.str "x"))
        = (JVal.str "x", 0, applyWrite [] (.setex "k2" 5 (serialize (JVal.str "x"))))
    ∧ remember [("k", ⟨"1", none⟩)] "k" 7 (.fn fun _ => JVal.bool false)
        = (cacheGetStore [("k", ⟨"1", none⟩)] "k", 0, [("k", ⟨"1", none⟩)]) :=
  ⟨remember_spec.1 [] "k" 3600 _ (by decide) rfl,
    remember_spec.2.1 [] "k2" 5 _ (by decide) rfl,
    remember_spec.2.2 [("k", ⟨"1", none⟩)] "k" 7 _ (fun h => by
      rw [show cacheGetStore [("k", ⟨"1", none⟩)] "k" = JVal.num 1 from rfl] at h
      exact JVal.noConfusion h)⟩

/-- C4: the claim states that a failing fail-closed operation raises an
Operation Error whose message is exactly
"Cache <OPERATION> operation failed: <underlying message>" and whose
cause is the original underlying error.  Evaluating `set`'s error path:
the thrown `CacheError` carries the operation name, but its message is
the format applied twice (`handleError` formats it and the `CacheError`
constructor prefixes it again), and its `originalError` is a fresh
`Error` wrapping the once-formatted text rather than the underlying
error. -/
theorem set_error_double_prefix (e : JSError) :
    cacheSet (.error e)
      = (["Cache SET operation failed: " ++ e.message],
          .thrown (.cacheErr
            { name := "CacheError"
              message := "Cache SET operation failed: "
                ++ ("Cache SET operation failed: " ++ e.message)
              operation := "SET"
              originalError := ⟨"Cache SET operation failed: " ++ e.message⟩ }))
    ∧ "Cache SET operation failed: " ++ ("Cache SET operation failed: " ++ e.message)
        ≠ "Cache SET operation failed: " ++ e.message
    ∧ (⟨"Cache SET operation failed: " ++ e.message⟩ : JSError) ≠ e := by
  refine ⟨rfl, prefix_append_ne _ _ (by decide), fun h => ?_⟩
  have h2 : "Cache SET operation failed: " ++ e.message = e.message :=
    congrArg JSError.message h
  exact prefix_append_ne _ _ (by decide) h2

/-- C5: the claim states that every pre-built client instance — single
node or cluster, including the client built by the `Cache.Cluster`
factory — is stored by reference and returned by `client()`.  A
single-node instance is indeed stored as-is, but a cluster instance
fails the constructor's `instanceof Redis` test, so `new Redis(...args)`
is called instead: the facade built by the cluster factory stores a
fresh single-node client, not the cluster it just built. -/
theorem ctor_cluster_not_stored (rid cid fresh : Nat) (nodes : List (String × Int))
    (opts : String) :
    clientMethod (cacheCtor (.instArg (.single rid)) fresh) = .single rid
    ∧ clientMethod (cacheClusterFactory nodes opts cid fresh) = .single fresh
    ∧ RedisClient.single fresh ≠ .cluster cid :=
  ⟨rfl, rfl, fun h => RedisClient.noConfusion h⟩

/-- C6: on any underlying read error, `get` logs one diagnostic line
naming the operation and the underlying message and settles with the
absent value null; it never propagates the error. -/
theorem get_error_fail_open (e : JSError) :
    cacheGet (.error e)
      = (["Cache GET operation failed: " ++ e.message], .ok JVal.null) := rfl

/-- C7 counterexample: on a store where the key holds the empty string,
`exists` returns true while `get` returns the absent value, so the
claimed equivalence fails as stated. -/
theorem exists_get_iff_cex :
    ¬((cacheExistsStore [("k", ⟨"", none⟩)] "k" = true)
        ↔ cacheGetStore [("k", ⟨"", none⟩)] "k" ≠ JVal.null) := by
  intro h
  exact (h.mp rfl) rfl

/-- C7 (amended): whenever `get` returns a non-absent value the key is
present, so `exists` returns true; the converse direction fails (an
existing key can hold the empty string, or text parsing to JSON null,
which `get` reports as absent). -/
theorem exists_of_get_nonabsent (st : Store) (k : String)
    (h : cacheGetStore st k ≠ JVal.null) : cacheExistsStore st k = true := by
  cases hl : lookupEntry st k with
  | none =>
    exfalso
    apply h
    unfold cacheGetStore redisGet
    rw [hl]
    rfl
  | some en =>
    unfold cacheExistsStore redisExists
    rw [hl]
    rfl

/-- C7 witness: the amended implication applied to a store holding a
non-empty, non-null value. -/
theorem exists_of_get_nonabsent_witness :
    cacheExistsStore [("k", ⟨"1", none⟩)] "k" = true :=
  exists_of_get_nonabsent [("k", ⟨"1", none⟩)] "k" (fun h => by
    rw [show cacheGetStore [("k", ⟨"1", none⟩)] "k" = JVal.num 1 from rfl] at h
    exact JVal.noConfusion h)

/-- C8: serialization stores primitives as their direct text — strings
verbatim (not JSON-quoted), numbers and booleans via `String(data)` —
and structured values (null, arrays, objects) as their JSON text; in
particular the number 5 and the string "5" serialize to the same stored
text. -/
theorem serialize_primitives :
    (∀ s : String, serialize (.str s) = s)
    ∧ (∀ n : Int, serialize (.num n) = String.mk (intChars n))
    ∧ serialize (.bool true) = "true" ∧ serialize (.bool false) = "false"
    ∧ serialize JVal.null = jsonStringify JVal.null
    ∧ (∀ xs, serialize (.arr xs) = jsonStringify (.arr xs))
    ∧ (∀ fs, serialize (.obj fs) = jsonStringify (.obj fs))
    ∧ serialize (.num 5) = serialize (.str "5")
    ∧ serialize (.str "5") ≠ jsonStringify (.str "5") := by
  have h5 : intChars 5 = ['5'] := by
    unfold intChars
    rw [if_neg (by decide), natChars, if_pos (by decide)]
    rfl
  have hq : jsonStringify (JVal.str "5") = String.mk ['"', '5', '"'] := by
    unfold jsonStringify
    rw [show stringifyV (JVal.str "5") = ['"', '5', '"'] from by
      simp [stringifyV, escapeChars, escapeChar]]
  refine ⟨fun s => rfl, fun n => rfl, rfl, rfl, rfl, fun xs => rfl, fun fs => rfl, ?_, ?_⟩
  · show String.mk (intChars 5) = "5"
    rw [h5]
  · rw [hq]
    decide

/-- C9 counterexample: with a TTL argument of zero — which the claim says
is passed through as a write-with-expiry — `set` issues a plain write
with no expiry, because `ttl ? setex : set` treats 0 as falsy. -/
theorem set_zero_ttl_cex :
    setWrite "k" (JVal.bool true) (some 0) = RedisWrite.set "k" "true"
    ∧ setWrite "k" (JVal.bool true) (some 0) ≠ RedisWrite.setex "k" 0 "true" := by
  refine ⟨rfl, ?_⟩
  rw [show setWrite "k" (JVal.bool true) (some 0) = RedisWrite.set "k" "true" from rfl]
  exact fun h => RedisWrite.noConfusion h

/-- C9 (amended): a present nonzero TTL (truthy, including negative
values) makes `set` issue a write-with-expiry carrying that TTL and the
serialized value; an absent TTL or a TTL of zero (falsy) makes it issue
a plain write with no expiry. -/
theorem set_ttl_dispatch :
    (∀ (k : String) (v : JVal) (t : Int), t ≠ 0 →
        setWrite k v (some t) = .setex k t (serialize v))
    ∧ (∀ (k : String) (v : JVal), setWrite k v none = .set k (serialize v))
    ∧ (∀ (k : String) (v : JVal), setWrite k v (some 0) = .set k (serialize v)) := by
  refine ⟨fun k v t ht => ?_, fun k v => rfl, fun k v => ?_⟩
  · simp [setWrite, ht]
  · simp [setWrite]

/-- C9 witness: the amended dispatch applied at TTL 5. -/
theorem set_ttl_dispatch_witness :
    setWrite "k" (JVal.bool true) (some 5)
      = RedisWrite.setex "k" 5 (serialize (JVal.bool true)) :=
  set_ttl_dispatch.1 "k" (JVal.bool true) 5 (by decide)

/-- C10: for every key whose stored value is the empty string, `get`
returns the absent value null — the empty string is falsy in
`data ? this.parse(data) : null` — even though the key exists, so
`exists` returns true while `get` returns absent. -/
theorem empty_string_get_absent (st : Store) (k : String) (en : Entry)
    (h : lookupEntry st k = some en) (hv : en.value = "") :
    cacheGetStore st k = JVal.null ∧ cacheExistsStore st k = true := by
  constructor
  · unfold cacheGetStore redisGet
    rw [h]
    show (if en.value = "" then JVal.null else parse en.value) = JVal.null
    rw [if_pos hv]
  · unfold cacheExistsStore redisExists
    rw [h]
    rfl

/-- C10 witness: a store holding the empty string under "k". -/
theorem empty_string_get_absent_witness :
    cacheGetStore [("k", ⟨"", none⟩)] "k" = JVal.null
    ∧ cacheExistsStore [("k", ⟨"", none⟩)] "k" = true :=
  empty_string_get_absent [("k", ⟨"", none⟩)] "k" ⟨"", none⟩ rfl rfl
